import Mathlib

/-!
Verification development for the `custom-driver` repository: a collection of
independent device-monitoring scripts ("drivers").  Each driver logs into a
remote device (HTTPS/Redfish, HTTPS/SOAP, or SSH), issues a fixed sequence of
requests, parses the responses, and reports a table of rows to the host
platform via the `D.*` SDK.

The JavaScript sources are embedded shallowly:
* Pure string manipulation (`split`, `slice`, `replace`, regex matching) is
  translated to executable Lean functions over `List Char` / `String`.
* Callback-based asynchronous code is modelled by explicit state passing.
  The host SDK's `D.failure`/`D.success` terminate a driver run, so runs are
  modelled in `Except`-style: a failure aborts the remaining continuation.
* The fan-out/join combinator `execute_all` (freebsd_route.js) is modelled by a
  step relation over an explicit join state, processing the callback-completion
  events in an arbitrary arrival order.
-/

namespace CustomDriver

/-! ## JavaScript string primitives -/

/-- The characters matched by the JavaScript regex class `\s`: the
ECMAScript WhiteSpace and LineTerminator sets (tab, LF, VT, FF, CR, space,
NBSP, U+1680, U+2000..U+200A, U+2028, U+2029, U+202F, U+205F, U+3000, and the
BOM U+FEFF). -/
def isWsChar (c : Char) : Bool :=
  c.toNat = 32 || c.toNat = 9 || c.toNat = 10 || c.toNat = 11 || c.toNat = 12
    || c.toNat = 13 || c.toNat = 160 || c.toNat = 5760
    || c.toNat = 8192 || c.toNat = 8193 || c.toNat = 8194 || c.toNat = 8195
    || c.toNat = 8196 || c.toNat = 8197 || c.toNat = 8198 || c.toNat = 8199
    || c.toNat = 8200 || c.toNat = 8201 || c.toNat = 8202
    || c.toNat = 8232 || c.toNat = 8233 || c.toNat = 8239 || c.toNat = 8287
    || c.toNat = 12288 || c.toNat = 65279

/-- Tests whether the first list is a prefix of the second. -/
def listHasPre : List Char → List Char → Bool
  | [], _ => true
  | _ :: _, [] => false
  | p :: ps, c :: cs => p = c && listHasPre ps cs

/-- Helper for `splitNlJs`: accumulates the current piece (reversed). -/
def splitNlGo : List Char → List Char → List String
  | [], acc => [String.mk acc.reverse]
  | c :: rest, acc =>
    if c = '\n' then String.mk acc.reverse :: splitNlGo rest []
    else splitNlGo rest (c :: acc)

/-- JavaScript `s.split("\n")`: every newline is a separator and empty pieces
are kept, so the result always has one more piece than there are newlines. -/
def splitNlJs (s : String) : List String := splitNlGo s.data []

/-- Helper for `splitWsJs`.  The boolean records whether the previous character
was part of a whitespace run (a maximal run is a single separator). -/
def splitWsGo : List Char → List Char → Bool → List String
  | [], acc, _ => [String.mk acc.reverse]
  | c :: rest, acc, inSep =>
    if isWsChar c then
      if inSep then splitWsGo rest acc true
      else String.mk acc.reverse :: splitWsGo rest [] true
    else splitWsGo rest (c :: acc) false

/-- JavaScript `s.split(/\s+/gm)`: splits on maximal whitespace runs, keeping
an empty leading piece when the string starts with whitespace and an empty
trailing piece when it ends with whitespace. -/
def splitWsJs (s : String) : List String := splitWsGo s.data [] false

/-! ## The `execute_all` fan-out/join combinator (freebsd_route.js, lines 58-73)

```js
function execute_all(arrayFn, callback) {
    if (arrayFn.length == 0) {
        callback([]);
    }
    var length = arrayFn.length;
    var results = new Array(length);
    var finished = 0;
    arrayFn.forEach(function (fn, index) {
        fn(function (result) {
            results[index] = result;
            if (++finished == length) {
                callback(results);
            }
        });
    });
}
```

Each `fn` in `arrayFn` eventually invokes the per-index callback with a result.
We model a run by the sequence ("arrival order") of those completion events:
event `i` stands for the callback of `arrayFn[i]` firing with value `val i`.
The join state tracks the `results` array (`none` = JS array hole), the
`finished` counter, and every invocation of the final `callback` together with
the `results` snapshot it received. -/

structure JoinState (α : Type) where
  results : List (Option α)
  finished : Nat
  calls : List (List (Option α))
deriving DecidableEq, Repr

/-- The state right after the synchronous part of `execute_all`: for an empty
`arrayFn` the `callback([])` in the length-zero branch has already fired (the
branch has no `return`, but the subsequent `forEach` performs no iterations). -/
def executeAllInit (α : Type) (n : Nat) : JoinState α :=
  { results := List.replicate n none
    finished := 0
    calls := if n = 0 then [[]] else [] }

/-- One completion event: `results[index] = result; if (++finished == length)
callback(results);` for event index `i` carrying value `val i`. -/
def joinStep (n : Nat) (val : Nat → α) (s : JoinState α) (i : Nat) : JoinState α :=
  let res := s.results.set i (some (val i))
  let fin := s.finished + 1
  { results := res
    finished := fin
    calls := if fin = n then s.calls ++ [res] else s.calls }

/-- A complete run of `execute_all` on `n` functions whose completion events
arrive in `order` (each event `i` delivering value `val i`). -/
def executeAllRun (α : Type) (n : Nat) (val : Nat → α) (order : List Nat) : JoinState α :=
  order.foldl (joinStep n val) (executeAllInit α n)

/-! ### Helper lemmas about the join fold -/

theorem joinFold_finished (n : Nat) (val : Nat → α) :
    ∀ (order : List Nat) (s : JoinState α),
      (order.foldl (joinStep n val) s).finished = s.finished + order.length := by
  intro order
  induction order with
  | nil => intro s; simp
  | cons i os ih =>
    intro s
    simp only [List.foldl_cons, ih, joinStep, List.length_cons]
    omega

theorem joinFold_results (n : Nat) (val : Nat → α) :
    ∀ (order : List Nat) (s : JoinState α),
      (order.foldl (joinStep n val) s).results =
        order.foldl (fun r i => r.set i (some (val i))) s.results := by
  intro order
  induction order with
  | nil => intro s; rfl
  | cons i os ih => intro s; simp only [List.foldl_cons, ih, joinStep]

theorem setFold_length (val : Nat → α) :
    ∀ (order : List Nat) (r : List (Option α)),
      (order.foldl (fun r i => r.set i (some (val i))) r).length = r.length := by
  intro order
  induction order with
  | nil => intro r; rfl
  | cons i os ih => intro r; simp [List.foldl_cons, ih]

theorem setFold_getElem? (val : Nat → α) :
    ∀ (order : List Nat) (r : List (Option α)) (j : Nat), (∀ i ∈ order, i < r.length) →
      (order.foldl (fun r i => r.set i (some (val i))) r)[j]? =
        if j ∈ order then some (some (val j)) else r[j]? := by
  intro order
  induction order with
  | nil => intro r j _; simp
  | cons i os ih =>
    intro r j hlen
    simp only [List.foldl_cons]
    rw [ih (r.set i (some (val i))) j
      (by intro a ha; rw [List.length_set]; exact hlen a (List.mem_cons_of_mem i ha))]
    by_cases hos : j ∈ os
    · simp [hos, List.mem_cons]
    · by_cases hij : j = i
      · subst hij
        simp [hos, List.getElem?_set_self (hlen j (List.mem_cons_self j os))]
      · rw [List.getElem?_set_ne (fun h => hij h.symm)]
        simp [hos, List.mem_cons, hij]

theorem joinFold_calls_nil (n : Nat) (val : Nat → α) :
    ∀ (order : List Nat) (s : JoinState α), s.calls = [] →
      s.finished + order.length < n →
      (order.foldl (joinStep n val) s).calls = [] := by
  intro order
  induction order with
  | nil => intro s hc _; simpa using hc
  | cons i os ih =>
    intro s hc hlt
    simp only [List.length_cons] at hlt
    simp only [List.foldl_cons]
    apply ih
    · simp only [joinStep]
      rw [if_neg (by omega), hc]
    · simp only [joinStep]; omega

theorem joinFold_calls_last (n : Nat) (val : Nat → α) :
    ∀ (order : List Nat) (s : JoinState α), order ≠ [] → s.calls = [] →
      s.finished + order.length = n →
      (order.foldl (joinStep n val) s).calls =
        [(order.foldl (joinStep n val) s).results] := by
  intro order
  induction order with
  | nil => intro s h _ _; exact absurd rfl h
  | cons i os ih =>
    intro s _ hc hlen
    simp only [List.length_cons] at hlen
    cases os with
    | nil =>
      simp only [List.length_nil] at hlen
      simp only [List.foldl_cons, List.foldl_nil, joinStep]
      rw [if_pos (by omega), hc]
      simp
    | cons o os' =>
      rw [List.foldl_cons]
      apply ih (joinStep n val s i) (by simp)
      · simp only [joinStep]
        rw [if_neg (by simp only [List.length_cons] at hlen; omega), hc]
      · simp only [joinStep, List.length_cons] at hlen ⊢
        omega

/-- C1 -- For every non-empty array `arrayFn` of functions, each of which
invokes its callback exactly once with some result (the completion events form
a permutation of the indices `0..n-1`), `execute_all` invokes its final
callback exactly once, only after every function has completed (the calls list
stays empty on every proper prefix of the run), and the results array it
passes satisfies `results[i] = val i` for every index `i`: the counter-based
join fires precisely when the count of finished callbacks equals `n`. -/
theorem execute_all_join_correct (α : Type) (n : Nat) (val : Nat → α)
    (order : List Nat) (hn : 0 < n) (hperm : order.Perm (List.range n)) :
    (executeAllRun α n val order).calls = [(List.range n).map (fun i => some (val i))] ∧
    ∀ k, k < order.length → (executeAllRun α n val (order.take k)).calls = [] := by
  have hlen : order.length = n := by simpa using hperm.length_eq
  have hmem : ∀ i, i ∈ order ↔ i < n := by
    intro i
    rw [hperm.mem_iff, List.mem_range]
  constructor
  · have hne : order ≠ [] := by
      intro h; rw [h, List.length_nil] at hlen; omega
    have hinit_calls : (executeAllInit α n).calls = [] := by
      simp [executeAllInit]; omega
    have hlast := joinFold_calls_last n val order (executeAllInit α n) hne hinit_calls
      (by simp [executeAllInit, hlen])
    rw [executeAllRun, hlast]
    congr 1
    rw [joinFold_results]
    apply List.ext_getElem?
    intro j
    rw [setFold_getElem? val order (executeAllInit α n).results j
      (by intro a ha; simp [executeAllInit]; exact (hmem a).mp ha)]
    by_cases hj : j < n
    · rw [if_pos ((hmem j).mpr hj)]
      simp [List.getElem?_range hj, hj]
    · rw [if_neg (fun h => hj ((hmem j).mp h))]
      simp only [executeAllInit]
      rw [List.getElem?_eq_none (by simpa using Nat.le_of_not_lt hj),
        List.getElem?_eq_none (by simpa using Nat.le_of_not_lt hj)]
  · intro k hk
    apply joinFold_calls_nil
    · simp [executeAllInit]; omega
    · simp only [executeAllInit, List.length_take]
      omega

/-- Concrete witness for `execute_all_join_correct`: two functions completing
out of order (`arrayFn[1]` first), with `val i = i`. -/
theorem execute_all_join_correct_witness :
    (executeAllRun Nat 2 (fun i => i) [1, 0]).calls =
      [(List.range 2).map (fun i => some i)] ∧
    ∀ k, k < ([1, 0] : List Nat).length →
      (executeAllRun Nat 2 (fun i => i) ([1, 0].take k)).calls = [] :=
  execute_all_join_correct Nat 2 (fun i => i) [1, 0] (by decide) (by decide)

/-- C8 -- When `execute_all` is applied to the empty array, its final callback
is invoked exactly once, with the empty results array, and never a second
time: the length-zero branch fires `callback([])` and, although the branch has
no `return`, the subsequent `forEach` over the empty array performs no
iterations, so no completion event can ever fire the callback again (the only
event order for zero functions is the empty one). -/
theorem execute_all_empty_array (α : Type) (val : Nat → α) (order : List Nat)
    (hperm : order.Perm (List.range 0)) :
    executeAllRun α 0 val order = { results := [], finished := 0, calls := [[]] } := by
  have : order = [] := by simpa using hperm.length_eq
  subst this
  rfl

/-- Concrete witness for `execute_all_empty_array`. -/
theorem execute_all_empty_array_witness :
    executeAllRun Nat 0 (fun i => i) [] = { results := [], finished := 0, calls := [[]] } :=
  execute_all_empty_array Nat (fun i => i) [] (by decide)

/-! ## FreeBSD route-table driver (src/examples/ssh/freebsd_route.js)

The driver issues `netstat` commands over SSH and turns each output line into
one row of the "Routing table" table.  The host SDK's `D.failure()` terminates
the script, which the model renders as an `Except`-style early exit. -/

def validate_cmd : String := "netstat -r -n"

def route_v4_cmd : String := "netstat -4 -r -n | tail -n +5"

def route_v6_cmd : String := "netstat -6 -r -n | tail -n +5"

/-- An SSH command response as delivered to the `sendSSHCommand` callback:
the output text and an optional error. -/
structure SshResp where
  out : String
  err : Option String
deriving DecidableEq, Repr

/-- A row of the routing table: the record id passed to `insertRecord` and the
four column values (`none` models the JavaScript `undefined` produced by
indexing `route_data` past its end). -/
structure RouteRecord where
  id : String
  cols : List (Option String)
deriving DecidableEq, Repr

/-- The response handler installed by `exec_command` (lines 23-33): on an
error it logs two lines to the console and calls `D.failure()`, which
terminates the run, so the continuation is never reached; otherwise it invokes
the continuation with `out.split("\n")`.  The `.error` value carries the
console output produced before termination. -/
def exec_command_handler (command : String) (resp : SshResp) :
    Except (List String) (List String) :=
  match resp.err with
  | some e => .error ["error while executing command: " ++ command, e]
  | none => .ok (splitNlJs resp.out)

/-- The per-line body of `route` (lines 38-46): split the line on whitespace
and insert a record whose id is `version + ">" + route_data[0]` and whose
columns are `route_data[0] .. route_data[3]`. -/
def recordOfLine (version : String) (line : String) : RouteRecord :=
  let route_data := splitWsJs line
  { id := version ++ ">" ++ route_data.headD ""
    cols := [route_data[0]?, route_data[1]?, route_data[2]?, route_data[3]?] }

inductive RouteResult
  | success (table : List RouteRecord)
  | failure
deriving DecidableEq, Repr

/-- The two `route(version, cmd)` tasks passed to `execute_all` by
`get_status` (lines 93-96), in order. -/
def freebsd_tasks : List (String × String) :=
  [("ip_v4", route_v4_cmd), ("ip_v6", route_v6_cmd)]

/-- Records inserted by one `route` callback for the given output lines. -/
def routeLines (version : String) (lines : List String) : List RouteRecord :=
  lines.map (recordOfLine version)

/-- The response-processing phase of `get_status`: responses are handled in
command order; a command error terminates the run with `D.failure()`; after
the final task completes, `execute_all`'s callback runs `D.success(table)`
exactly once (`execute_all_join_correct` justifies collapsing the
counter-based join to this sequential processing). -/
def freebsd_process : List ((String × String) × SshResp) → List RouteRecord → RouteResult
  | [], table => RouteResult.success table
  | ((version, cmd), resp) :: rest, table =>
    match exec_command_handler cmd resp with
    | .error _ => RouteResult.failure
    | .ok lines => freebsd_process rest (table ++ routeLines version lines)

/-- A complete `get_status` run: the commands sent (all of them are issued
synchronously by `execute_all`'s `forEach` before any response arrives) and
the final outcome. -/
structure FreebsdRun where
  sent : List String
  result : RouteResult
deriving DecidableEq, Repr

def freebsd_get_status (resp4 resp6 : SshResp) : FreebsdRun :=
  { sent := freebsd_tasks.map Prod.snd
    result := freebsd_process (freebsd_tasks.zip [resp4, resp6]) [] }

inductive ValidateResult
  | success
  | failure
deriving DecidableEq, Repr

/-- The driver's `validate` (lines 80-84): one `netstat -r -n` command; on an
error-free response it calls `D.success()`. -/
def freebsd_validate (resp : SshResp) : List String × ValidateResult :=
  ([validate_cmd],
    match exec_command_handler validate_cmd resp with
    | .error _ => ValidateResult.failure
    | .ok _ => ValidateResult.success)

/-- C4 -- For every run of the FreeBSD route driver's `get_status` in which
both `netstat` commands succeed, each line of each command's output yields
exactly one inserted record whose id is the version string (`"ip_v4"` or
`"ip_v6"`) joined by `">"` with the line's first whitespace-separated field
and whose four columns are the line's first four whitespace-separated fields
(`none` = JS `undefined` when a line has fewer than four fields), and the run
ends with a single `D.success` applied to this table. -/
theorem freebsd_route_table (out4 out6 : String) :
    (freebsd_get_status { out := out4, err := none } { out := out6, err := none }).result =
      RouteResult.success
        (((splitNlJs out4).map fun line =>
            { id := "ip_v4" ++ ">" ++ (splitWsJs line).headD ""
              cols := [(splitWsJs line)[0]?, (splitWsJs line)[1]?,
                       (splitWsJs line)[2]?, (splitWsJs line)[3]?] }) ++
         ((splitNlJs out6).map fun line =>
            { id := "ip_v6" ++ ">" ++ (splitWsJs line).headD ""
              cols := [(splitWsJs line)[0]?, (splitWsJs line)[1]?,
                       (splitWsJs line)[2]?, (splitWsJs line)[3]?] })) := by
  simp only [freebsd_get_status, freebsd_tasks, freebsd_process, exec_command_handler,
    routeLines, List.zip, List.zipWith, List.map, List.nil_append]
  rfl

/-! ## Windows IP-latency driver (src/unnamed/part_000)

The driver pings a fixed list of five IP addresses over SSH, parses each ping
output with two regexes, and joins the five callbacks with a counter. -/

def pktno : String := "2"

def ipAddresses : List String :=
  ["8.8.8.8", "1.1.1.1", "192.168.0.1", "192.168.0.2", "192.168.0.3"]

/-- The `D.errorType` values used by the drivers. -/
inductive DFailure
  | generic
  | authentication
  | resourceUnavailable
  | parsing
deriving DecidableEq, Repr

/-- An SSH error object as seen by `checkSshError`. An absent or empty
`message` is modelled as `""` (both are falsy in the `if (err.message)`
test). -/
structure WinErr where
  message : String
  code : Nat
deriving DecidableEq, Repr

/-- Model of `console.error(err)` printing the error object itself. -/
def WinErr.render (e : WinErr) : String :=
  "code=" ++ toString e.code ++ " message=" ++ e.message

/-- Lines 36-41: `checkSshError` logs `err.message` when it is truthy; for
`err.code == 5` it then calls `D.failure(AUTHENTICATION_ERROR)`, which
terminates the script so the remaining two statements never run; otherwise it
also logs the error object and calls `D.failure(GENERIC_ERROR)`.  The result
is the console output produced and the failure type signalled. -/
def checkSshError (err : WinErr) : List String × DFailure :=
  let logs := if err.message ≠ "" then [err.message] else []
  if err.code = 5 then (logs, DFailure.authentication)
  else (logs ++ [err.render], DFailure.generic)

/-! ### The two regexes of `resultCallback`

`/Average = (\d+)ms/` and `/Packets: Sent = \d+, Received = \d+, Lost = (\d+)/`
are simulated exactly: `exec` scans for the leftmost match, and each greedy
`\d+` never needs backtracking because every `\d+` in these patterns is
followed by a non-digit literal. -/

def isDigitChar (c : Char) : Bool := '0' ≤ c && c ≤ '9'

/-- Strips a literal off the front of a character list. -/
def stripLit : List Char → List Char → Option (List Char)
  | [], cs => some cs
  | _ :: _, [] => none
  | l :: ls, c :: cs => if c = l then stripLit ls cs else none

/-- Attempts to match `Average = (\d+)ms` at the start of `cs`, returning the
captured digits. -/
def averageAt (cs : List Char) : Option (List Char) :=
  match stripLit "Average = ".data cs with
  | none => none
  | some rest =>
    let ds := rest.takeWhile isDigitChar
    if ds.isEmpty then none
    else
      match stripLit "ms".data (rest.dropWhile isDigitChar) with
      | none => none
      | some _ => some ds

/-- Leftmost-match scan for `Average = (\d+)ms`. -/
def scanAverage : List Char → Option (List Char)
  | [] => none
  | c :: rest =>
    match averageAt (c :: rest) with
    | some ds => some ds
    | none => scanAverage rest

/-- `/Average = (\d+)ms/.exec(output)` returning capture group 1. -/
def execAverage (s : String) : Option String :=
  (scanAverage s.data).map String.mk

/-- Matches a greedy nonempty digit run followed by a literal; returns the
digits and the remainder after the literal. -/
def digitsThen (lit : List Char) (cs : List Char) : Option (List Char × List Char) :=
  let ds := cs.takeWhile isDigitChar
  if ds.isEmpty then none
  else
    match stripLit lit (cs.dropWhile isDigitChar) with
    | none => none
    | some rest => some (ds, rest)

/-- Attempts to match `Packets: Sent = \d+, Received = \d+, Lost = (\d+)` at
the start of `cs`, returning the captured digits of the `Lost` group. -/
def packetsAt (cs : List Char) : Option (List Char) :=
  match stripLit "Packets: Sent = ".data cs with
  | none => none
  | some r1 =>
    match digitsThen ", Received = ".data r1 with
    | none => none
    | some (_, r2) =>
      match digitsThen ", Lost = ".data r2 with
      | none => none
      | some (_, r3) =>
        let ds := r3.takeWhile isDigitChar
        if ds.isEmpty then none else some ds

/-- Leftmost-match scan for the packets regex. -/
def scanPackets : List Char → Option (List Char)
  | [] => none
  | c :: rest =>
    match packetsAt (c :: rest) with
    | some ds => some ds
    | none => scanPackets rest

/-- `/Packets: Sent = \d+, Received = \d+, Lost = (\d+)/.exec(output)`
returning capture group 1. -/
def execPackets (s : String) : Option String :=
  (scanPackets s.data).map String.mk

/-- A ping response delivered to `resultCallback`. -/
structure WinResp where
  output : String
  error : Option WinErr
deriving DecidableEq, Repr

/-- A row of the "IP Latency" table. -/
structure WinRecord where
  id : String
  cols : List String
deriving DecidableEq, Repr

/-- The possible behaviours of one invocation of `resultCallback`
(lines 76-93). -/
inductive CbOutcome
  | failed (f : DFailure)
  | crash
  | inserted (r : WinRecord)
deriving DecidableEq, Repr

/-- Lines 76-93.  With an error argument, `checkSshError` terminates the
script via `D.failure`.  Otherwise the two regexes are applied; the code
dereferences `matchLatency[1]` and `matchPacketLoss[1]` without a null check,
so a non-matching output throws a `TypeError` (modelled as `.crash`) before
`count` is ever incremented.  On a matching output exactly one record is
inserted, whose id is `D.crypto.hash(ipAddress, "sha256", null, "hex").slice(0, 50)`
(the platform hash is the parameter `hash`) and whose columns are the address,
the latency digits and the packet-loss digits. -/
def winResultCallback (hash : String → String) (ipAddress : String) (resp : WinResp) :
    CbOutcome :=
  match resp.error with
  | some e => CbOutcome.failed (checkSshError e).2
  | none =>
    match execAverage resp.output, execPackets resp.output with
    | some latencyValue, some packetLossValue =>
      CbOutcome.inserted
        { id := (hash ipAddress).take 50
          cols := [ipAddress, latencyValue, packetLossValue] }
    | _, _ => CbOutcome.crash

/-- A terminated run: `D.failure` was signalled, or an uncaught `TypeError`
killed the script. -/
inductive WinHalt
  | failed (f : DFailure)
  | crash
deriving DecidableEq, Repr

/-- The mutable state of `get_status`: the `count` counter, the table records
inserted so far, and every `D.success` invocation with its table snapshot. -/
structure WinState where
  count : Nat
  records : List WinRecord
  succCalls : List (List WinRecord)
deriving DecidableEq, Repr

/-- One completion event: the `resultCallback` for `ipAddresses[i]` runs on
response `resps i`; after a successful insert, `count++` and
`if (count === ipAddresses.length) D.success(tableColumns)`. -/
def winStep (hash : String → String) (resps : Nat → WinResp) (s : WinState) (i : Nat) :
    Except WinHalt WinState :=
  match winResultCallback hash (ipAddresses.getD i "") (resps i) with
  | .failed f => .error (.failed f)
  | .crash => .error .crash
  | .inserted r =>
    let records := s.records ++ [r]
    let count := s.count + 1
    .ok
      { count := count
        records := records
        succCalls := if count = ipAddresses.length then s.succCalls ++ [records] else s.succCalls }

/-- Processes the completion events in arrival order, stopping at the first
terminating event. -/
def winFold (hash : String → String) (resps : Nat → WinResp) :
    List Nat → WinState → Except WinHalt WinState
  | [], s => .ok s
  | i :: rest, s =>
    match winStep hash resps s i with
    | .error h => .error h
    | .ok s2 => winFold hash resps rest s2

def winInit : WinState := { count := 0, records := [], succCalls := [] }

/-- A complete `get_status` run (lines 70-96): the `forEach` synchronously
sends one ping command per address, then the responses arrive in `order`. -/
structure WinRun where
  sent : List String
  result : Except WinHalt WinState
deriving Repr

def windows_get_status (hash : String → String) (resps : Nat → WinResp) (order : List Nat) :
    WinRun :=
  { sent := ipAddresses.map fun ipAddress => "ping -n " ++ pktno ++ " " ++ ipAddress
    result := winFold hash resps order winInit }

/-- C10 -- For every error-free ping output containing a match of
`/Average = (\d+)ms/` and a match of
`/Packets: Sent = \d+, Received = \d+, Lost = (\d+)/`, `resultCallback`
inserts exactly one record whose id is the first 50 characters of the
platform hash (`D.crypto.hash(ip, "sha256", null, "hex")`, modelled by the
parameter `hash`) of the IP address and whose columns are the IP address, the
matched latency digits and the matched loss digits; and the unguarded
dereferences `matchLatency[1]` / `matchPacketLoss[1]` are safe only under
this precondition: on any output missing either match the callback throws. -/
theorem windows_resultCallback_inserts (hash : String → String)
    (ipAddress out lat loss : String)
    (h1 : execAverage out = some lat) (h2 : execPackets out = some loss) :
    winResultCallback hash ipAddress { output := out, error := none } =
      CbOutcome.inserted
        { id := (hash ipAddress).take 50, cols := [ipAddress, lat, loss] } ∧
    ∀ out2 : String, execAverage out2 = none ∨ execPackets out2 = none →
      winResultCallback hash ipAddress { output := out2, error := none } =
        CbOutcome.crash := by
  constructor
  · simp [winResultCallback, h1, h2]
  · intro out2 h
    rcases h with h | h
    · simp [winResultCallback, h]
    · cases ha : execAverage out2 <;> simp [winResultCallback, ha, h]

/-- Concrete witness for `windows_resultCallback_inserts`. -/
theorem windows_resultCallback_inserts_witness :
    winResultCallback id "8.8.8.8"
        { output := "Packets: Sent = 2, Received = 2, Lost = 0, Average = 13ms"
          error := none } =
      CbOutcome.inserted
        { id := (id "8.8.8.8").take 50, cols := ["8.8.8.8", "13", "0"] } ∧
    ∀ out2 : String, execAverage out2 = none ∨ execPackets out2 = none →
      winResultCallback id "8.8.8.8" { output := out2, error := none } =
        CbOutcome.crash :=
  windows_resultCallback_inserts id "8.8.8.8"
    "Packets: Sent = 2, Received = 2, Lost = 0, Average = 13ms" "13" "0" rfl rfl

/-! ### The counter-based join of the Windows driver -/

theorem winFold_no_success (hash : String → String) (resps : Nat → WinResp) :
    ∀ (ord : List Nat) (s : WinState),
      (∀ i ∈ ord, ∃ r,
        winResultCallback hash (ipAddresses.getD i "") (resps i) = CbOutcome.inserted r) →
      s.succCalls = [] → s.count + ord.length < ipAddresses.length →
      ∃ s2, winFold hash resps ord s = .ok s2 ∧ s2.succCalls = [] ∧
        s2.count = s.count + ord.length := by
  intro ord
  induction ord with
  | nil => intro s _ hsc _; exact ⟨s, rfl, hsc, by simp⟩
  | cons i os ih =>
    intro s hcb hsc hlt
    obtain ⟨r, hr⟩ := hcb i (List.mem_cons_self i os)
    simp only [List.length_cons] at hlt
    have hcond : ¬(s.count + 1 = ipAddresses.length) := by omega
    have hstep : winStep hash resps s i = .ok
        { count := s.count + 1, records := s.records ++ [r], succCalls := s.succCalls } := by
      simp only [winStep]
      rw [hr]
      simp [hcond]
    obtain ⟨s2, h2, hsc2, hcnt2⟩ := ih
      { count := s.count + 1, records := s.records ++ [r], succCalls := s.succCalls }
      (fun j hj => hcb j (List.mem_cons_of_mem i hj)) hsc
      (show s.count + 1 + os.length < ipAddresses.length by omega)
    refine ⟨s2, ?_, hsc2, ?_⟩
    · rw [winFold, hstep]; exact h2
    · rw [hcnt2]; show s.count + 1 + os.length = s.count + (os.length + 1); omega

theorem winFold_success_once (hash : String → String) (resps : Nat → WinResp) :
    ∀ (ord : List Nat) (s : WinState), ord ≠ [] →
      (∀ i ∈ ord, ∃ r,
        winResultCallback hash (ipAddresses.getD i "") (resps i) = CbOutcome.inserted r) →
      s.succCalls = [] → s.count + ord.length = ipAddresses.length →
      ∃ s2, winFold hash resps ord s = .ok s2 ∧ s2.succCalls = [s2.records] := by
  intro ord
  induction ord with
  | nil => intro s h _ _ _; exact absurd rfl h
  | cons i os ih =>
    intro s _ hcb hsc hlen
    obtain ⟨r, hr⟩ := hcb i (List.mem_cons_self i os)
    simp only [List.length_cons] at hlen
    cases os with
    | nil =>
      simp only [List.length_nil] at hlen
      have hcond : s.count + 1 = ipAddresses.length := by omega
      have hstep : winStep hash resps s i = .ok
          { count := s.count + 1, records := s.records ++ [r]
            succCalls := s.succCalls ++ [s.records ++ [r]] } := by
        simp only [winStep]
        rw [hr]
        simp [hcond]
      refine ⟨{ count := s.count + 1, records := s.records ++ [r]
                succCalls := s.succCalls ++ [s.records ++ [r]] }, ?_, ?_⟩
      · rw [winFold, hstep]; rfl
      · simp [hsc]
    | cons o os2 =>
      have hcond : ¬(s.count + 1 = ipAddresses.length) := by
        simp only [List.length_cons] at hlen; omega
      have hstep : winStep hash resps s i = .ok
          { count := s.count + 1, records := s.records ++ [r], succCalls := s.succCalls } := by
        simp only [winStep]
        rw [hr]
        simp [hcond]
      obtain ⟨s2, h2, hsc2⟩ := ih
        { count := s.count + 1, records := s.records ++ [r], succCalls := s.succCalls }
        (by simp) (fun j hj => hcb j (List.mem_cons_of_mem i hj)) hsc
        (by simp only [List.length_cons] at hlen
            show s.count + 1 + (o :: os2).length = ipAddresses.length
            simp only [List.length_cons] at hlen ⊢
            omega)
      refine ⟨s2, ?_, hsc2⟩
      rw [winFold, hstep]; exact h2

/-- C6 (amended) -- In every run of the Windows latency driver's `get_status`
in which all SSH callbacks receive a null error argument AND every ping
output matches both regexes (without the latter, `matchLatency[1]` /
`matchPacketLoss[1]` throws and `count` never reaches five, see
`windows_join_counterexample`), `D.success(tableColumns)` is invoked exactly
once, and never before all `ipAddresses.length` (five) responses have been
processed: success fires precisely when the completion counter reaches the
length of the fan-out. -/
theorem windows_join_success (hash : String → String) (resps : Nat → WinResp)
    (order : List Nat) (hperm : order.Perm (List.range ipAddresses.length))
    (hok : ∀ i, i < ipAddresses.length → (resps i).error = none)
    (hmatch : ∀ i, i < ipAddresses.length →
      (execAverage (resps i).output).isSome ∧ (execPackets (resps i).output).isSome) :
    (∃ s, (windows_get_status hash resps order).result = .ok s ∧ s.succCalls.length = 1) ∧
    (∀ k, k < order.length →
      ∃ s, winFold hash resps (order.take k) winInit = .ok s ∧ s.succCalls = []) := by
  have hcb : ∀ i ∈ order, ∃ r,
      winResultCallback hash (ipAddresses.getD i "") (resps i) = CbOutcome.inserted r := by
    intro i hi
    have hilt : i < ipAddresses.length := by
      have := hperm.mem_iff.mp hi; simpa using this
    obtain ⟨ha, hp⟩ := hmatch i hilt
    obtain ⟨lat, hlat⟩ := Option.isSome_iff_exists.mp ha
    obtain ⟨loss, hloss⟩ := Option.isSome_iff_exists.mp hp
    exact ⟨{ id := (hash (ipAddresses.getD i "")).take 50
             cols := [ipAddresses.getD i "", lat, loss] },
      by simp [winResultCallback, hok i hilt, hlat, hloss]⟩
  have hlen : order.length = ipAddresses.length := by simpa using hperm.length_eq
  constructor
  · have hne : order ≠ [] := by
      intro h; rw [h, List.length_nil] at hlen; simp [ipAddresses] at hlen
    obtain ⟨s2, h2, hsc2⟩ := winFold_success_once hash resps order winInit hne hcb rfl
      (by simpa [winInit] using hlen)
    exact ⟨s2, h2, by rw [hsc2]; rfl⟩
  · intro k hk
    obtain ⟨s2, h2, hsc2, _⟩ := winFold_no_success hash resps (order.take k) winInit
      (fun j hj => hcb j (List.take_subset k order hj)) rfl
      (by simp only [winInit, List.length_take]; omega)
    exact ⟨s2, h2, hsc2⟩

/-- Concrete witness for `windows_join_success`: five well-formed ping
responses arriving in reverse order. -/
theorem windows_join_success_witness :
    (∃ s, (windows_get_status id
        (fun _ => { output := "Packets: Sent = 2, Received = 2, Lost = 0, Average = 13ms"
                    error := none })
        [4, 3, 2, 1, 0]).result = .ok s ∧ s.succCalls.length = 1) ∧
    (∀ k, k < ([4, 3, 2, 1, 0] : List Nat).length →
      ∃ s, winFold id
        (fun _ => { output := "Packets: Sent = 2, Received = 2, Lost = 0, Average = 13ms"
                    error := none })
        ([4, 3, 2, 1, 0].take k) winInit = .ok s ∧ s.succCalls = []) :=
  windows_join_success id
    (fun _ => { output := "Packets: Sent = 2, Received = 2, Lost = 0, Average = 13ms"
                error := none })
    [4, 3, 2, 1, 0] (by decide) (fun _ _ => rfl) (fun _ _ => ⟨rfl, rfl⟩)

/-- Counterexample to C6 as stated: every response carries a null SSH error
argument, yet `D.success` is never invoked -- the first callback throws on
`matchLatency[1]` because the empty output matches neither regex, so the
completion counter never reaches five and the run dies with an uncaught
`TypeError`. -/
theorem windows_join_counterexample :
    (windows_get_status (fun _ => "") (fun _ => { output := "", error := none })
        [0, 1, 2, 3, 4]).result = Except.error WinHalt.crash := rfl

/-- C5 -- The sequence of commands each driver issues is fixed and
independent of any device response: every `get_status` run of the FreeBSD
route driver sends exactly the two SSH command strings
`netstat -4 -r -n | tail -n +5` and `netstat -6 -r -n | tail -n +5`, its
`validate` sends exactly `netstat -r -n`, and every `get_status` run of the
Windows latency driver sends exactly one `ping -n 2 <ip>` command per entry
of the fixed `ipAddresses` list. -/
theorem fixed_command_sequences :
    (∀ resp4 resp6 : SshResp, (freebsd_get_status resp4 resp6).sent =
      ["netstat -4 -r -n | tail -n +5", "netstat -6 -r -n | tail -n +5"]) ∧
    (∀ resp : SshResp, (freebsd_validate resp).1 = ["netstat -r -n"]) ∧
    (∀ (hash : String → String) (resps : Nat → WinResp) (order : List Nat),
      (windows_get_status hash resps order).sent =
        ["ping -n 2 8.8.8.8", "ping -n 2 1.1.1.1", "ping -n 2 192.168.0.1",
         "ping -n 2 192.168.0.2", "ping -n 2 192.168.0.3"]) :=
  ⟨fun _ _ => rfl, fun _ => rfl, fun _ _ _ => rfl⟩

/-! ## Dell PowerVault SAN drives driver (src/examples/http/dell_power_vault_san_drives.js)

The driver logs into the Redfish API, walks Storage -> controllers -> drives
with chained promises, and inserts one table record per drive.  JSON bodies
are modelled already parsed, as a small JavaScript value type `JVal`. -/

inductive JVal
  | undefinedV
  | null
  | bool (b : Bool)
  | num (n : Int)
  | str (s : String)
  | arr (elems : List JVal)
  | obj (fields : List (String × JVal))

/-- JavaScript truthiness. -/
def JVal.truthy : JVal → Bool
  | .undefinedV => false
  | .null => false
  | .bool b => b
  | .num n => decide (n ≠ 0)
  | .str s => decide (s ≠ "")
  | .arr _ => true
  | .obj _ => true

def lookupField : List (String × JVal) → String → JVal
  | [], _ => .undefinedV
  | (k, v) :: rest, key => if k = key then v else lookupField rest key

/-- JavaScript property access `v[k]`: throws a TypeError on undefined/null
(the `.error` case), yields `undefined` on other primitives. -/
def JVal.fieldE : JVal → String → Except Unit JVal
  | .undefinedV, _ => .error ()
  | .null, _ => .error ()
  | .obj fields, k => .ok (lookupField fields k)
  | _, _ => .ok .undefinedV

/-- Property access after a truthiness guard (cannot throw). -/
def JVal.field (v : JVal) (k : String) : JVal :=
  match v.fieldE k with
  | .ok w => w
  | .error _ => .undefinedV

/-- The elements of an array value; `.map` exists only on arrays, so calling
it on any other value throws. -/
def jsArrElems : JVal → Option (List JVal)
  | .arr l => some l
  | _ => none

mutual
/-- JavaScript `String(v)` coercion (used where a `JVal` flows into string
concatenation or a URL). -/
def jsToString : JVal → String
  | .undefinedV => "undefined"
  | .null => "null"
  | .bool true => "true"
  | .bool false => "false"
  | .num n => toString n
  | .str s => s
  | .obj _ => "[object Object]"
  | .arr l => String.intercalate "," (jsArrParts l)

/-- Array elements joined by `,`; null and undefined stringify to `""` inside
an array. -/
def jsArrParts : List JVal → List String
  | [] => []
  | .undefinedV :: rest => "" :: jsArrParts rest
  | .null :: rest => "" :: jsArrParts rest
  | v :: rest => jsToString v :: jsArrParts rest
end

/-- JavaScript loose equality `v == s` for a non-numeric string literal `s`
(the only use is `drive.Status.State == "Enabled"`): true when `v` is that
string, or an object/array whose primitive coercion equals it; numbers and
booleans compare numerically against `NaN` and are false, as are null and
undefined. -/
def jsEqStr (v : JVal) (s : String) : Bool :=
  match v with
  | .str t => decide (t = s)
  | .arr _ => decide (jsToString v = s)
  | .obj _ => decide (jsToString v = s)
  | _ => false

/-! ### `sanitize` (lines 147-151)

```js
var recordIdReservedWords = ['\\?', '\\*', '\\%', 'table', 'column', 'history'];
var recordIdSanitisationRegex = new RegExp(recordIdReservedWords.join('|'), 'g');
return output.replace(recordIdSanitisationRegex, '').slice(0, 50)
             .replace(/\s+/g, '-').toLowerCase();
```
-/

/-- Global replacement of `/\?|\*|\%|table|column|history/` by the empty
string.  The alternatives are disjoint at any position (their first characters
differ), and `replace` resumes scanning after each removed match without
rescanning, exactly as this recursion does. -/
def removeReservedGo : List Char → Nat → List Char
  | [], _ => []
  | _ :: rest, skip + 1 => removeReservedGo rest skip
  | a :: rest, 0 =>
    if listHasPre ['t', 'a', 'b', 'l', 'e'] (a :: rest) then removeReservedGo rest 4
    else if listHasPre ['c', 'o', 'l', 'u', 'm', 'n'] (a :: rest) then removeReservedGo rest 5
    else if listHasPre ['h', 'i', 's', 't', 'o', 'r', 'y'] (a :: rest) then
      removeReservedGo rest 6
    else if a = '?' || a = '*' || a = '%' then removeReservedGo rest 0
    else a :: removeReservedGo rest 0

def removeReserved (l : List Char) : List Char := removeReservedGo l 0

/-- Helper for `replace(/\s+/g, '-')`: each maximal whitespace run becomes a
single dash. -/
def dashWsGo : List Char → Bool → List Char
  | [], _ => []
  | c :: rest, inSep =>
    if isWsChar c then
      if inSep then dashWsGo rest true
      else '-' :: dashWsGo rest true
    else c :: dashWsGo rest false

def dashWs (cs : List Char) : List Char := dashWsGo cs false

/-- One character of JavaScript `String.prototype.toLowerCase()` (the
default, locale-independent Unicode mapping).  Its single expanding
unconditional case is U+0130 LATIN CAPITAL LETTER I WITH DOT ABOVE, which
lower-cases to the TWO characters U+0069 U+0307 -- so `toLowerCase` can
lengthen a string.  The remaining mapping is one-to-one; this model carries
its basic-latin part (`Char.toLower`) and leaves other characters unchanged,
omitting the non-ASCII one-to-one entries (e.g. U+00C4 -> U+00E4).  The
per-character theorems below therefore assume basic-latin input, where the
model is exact; the expanding U+0130 case is exact as well and refutes the
universal length bound (`sanitize_unicode_counterexample`). -/
def jsLowerChar (c : Char) : List Char :=
  if c.toNat = 304 then ['i', Char.ofNat 775]
  else [Char.toLower c]

/-- `sanitize` itself: remove the reserved words, `slice(0, 50)`, collapse
each whitespace run to `-`, then lower-case (each character mapping to one or
two characters, concatenated). -/
def sanitize (output : String) : String :=
  String.mk ((dashWs ((removeReserved output.data).take 50)).flatMap jsLowerChar)

/-! ### The Dell HTTP layer -/

/-- An HTTP response as seen by `processResponse`: transport error, the two
headers the code inspects, the status code and the (already parsed) body. -/
structure HttpResp where
  error : Option String
  xAuthToken : Option String
  commandStatus : Option String
  statusCode : Nat
  body : JVal

/-- The device model: the login response and, for each (session token, url)
pair, the GET response. -/
structure DellDevice where
  loginResp : HttpResp
  getResp : Option String → String → HttpResp

/-- Truthiness of `response.headers[h]` (an absent header is undefined, an
empty header string is falsy). -/
def headerTruthy : Option String → Bool
  | none => false
  | some s => decide (s ≠ "")

def listHasSub : List Char → List Char → Bool
  | [], needle => needle.isEmpty
  | c :: rest, needle => listHasPre needle (c :: rest) || listHasSub rest needle

/-- JavaScript `hay.indexOf(sub) !== -1`. -/
def strHasSub (hay sub : String) : Bool := listHasSub hay.data sub.data

/-- `processResponse` (lines 29-48).  A transport error is logged and
signalled with `D.failure(GENERIC_ERROR)`, which terminates the run before
`d.resolve` is reached.  Otherwise: a truthy `x-auth-token` header updates the
session token and the body resolves; a `command-status` header containing
"Command failed" or "Invalid URL" fails with AUTHENTICATION_ERROR resp.
RESOURCE_UNAVAILABLE; a non-200 status fails with GENERIC_ERROR (without
logging); otherwise the body resolves with the token unchanged.  The `.error`
payload carries the failure type and the console output produced. -/
def processResponse (sessionToken : Option String) (r : HttpResp) :
    Except (DFailure × List String) (Option String × JVal) :=
  if let some e := r.error then
    .error (.generic, [e])
  else if headerTruthy r.xAuthToken then
    .ok (r.xAuthToken, r.body)
  else if headerTruthy r.commandStatus && strHasSub (r.commandStatus.getD "") "Command failed" then
    .error (.authentication, ["Session token not found in response headers"])
  else if headerTruthy r.commandStatus && strHasSub (r.commandStatus.getD "") "Invalid URL" then
    .error (.resourceUnavailable, ["Invalid URL"])
  else if r.statusCode ≠ 200 then
    .error (.generic, [])
  else
    .ok (sessionToken, r.body)

/-! ### The promise chain of `get_status`

Each stage returns the request events it emitted together with either the
resolved value (and the threaded session token) or the `D.failure` type that
terminated the run.  A `TypeError` thrown inside a `.then` callback is caught
by the surrounding `.catch`, which logs and calls `D.failure(GENERIC_ERROR)`,
so such throws are modelled directly as a generic failure. -/

inductive PhaseEv
  | auth
  | fetchReq (url : String)
  | parseStep
  | report
deriving DecidableEq, Repr

def phaseOf : PhaseEv → Nat
  | .auth => 0
  | .fetchReq _ => 1
  | .parseStep => 2
  | .report => 3

/-- The trace of a run is phase-monotone: authentication, then data fetches,
then parsing, then the report. -/
def PhaseMono (tr : List PhaseEv) : Prop :=
  tr.Pairwise fun a b => phaseOf a ≤ phaseOf b

/-- A row of the "Drives" table. -/
structure DellRecord where
  id : String
  cols : List JVal

/-- `httpGet` (lines 75-88): one GET carrying the current session token.  The
fetch event is emitted whether or not the response is an error (the request
was sent either way). -/
def dellHttpGet (dev : DellDevice) (tok : Option String) (url : String) :
    List PhaseEv × Except DFailure (JVal × Option String) :=
  ([.fetchReq url],
    match processResponse tok (dev.getResp tok url) with
    | .error (f, _) => .error f
    | .ok (tok2, body) => .ok (body, tok2))

/-- `getDriveInfo` (lines 132-145): fetches the drive; with a truthy drive
body carrying a truthy `Name` it resolves `{controllerName, drive}`, otherwise
it logs and resolves undefined (`none`). -/
def getDriveInfo (dev : DellDevice) (tok : Option String) (driveUrl : String)
    (controllerName : JVal) :
    List PhaseEv × Except DFailure (Option (JVal × JVal) × Option String) :=
  let r0 := dellHttpGet dev tok driveUrl
  (r0.1,
    match r0.2 with
    | .error f => .error f
    | .ok (drive, tok2) =>
      if drive.truthy && (drive.field "Name").truthy then
        .ok (some (controllerName, drive), tok2)
      else
        .ok (none, tok2))

/-- The `controller.Drives.map(...)` / `D.q.all` stage of `getControllerInfo`
(lines 111-115): drives are fetched in order; accessing `'@odata.id'` on a
null/undefined element throws, which the `.catch` turns into
`D.failure(GENERIC_ERROR)`. -/
def mapDrives (dev : DellDevice) (controllerName : JVal) :
    List JVal → Option String →
    List PhaseEv × Except DFailure (List (Option (JVal × JVal)) × Option String)
  | [], tok => ([], .ok ([], tok))
  | d :: rest, tok =>
    match d.fieldE "@odata.id" with
    | .error _ => ([], .error .generic)
    | .ok u =>
      let r1 := getDriveInfo dev tok (jsToString u) controllerName
      match r1.2 with
      | .error f => (r1.1, .error f)
      | .ok (info, tok2) =>
        let r2 := mapDrives dev controllerName rest tok2
        (r1.1 ++ r2.1,
          match r2.2 with
          | .error f => .error f
          | .ok (infos, tok3) => .ok (info :: infos, tok3))

/-- `getControllerInfo` (lines 108-124): fetches the controller; with a truthy
controller carrying truthy `Name` and `Drives` it maps over the drives
(`Drives` must actually be an array, otherwise `.map` throws and the `.catch`
fails the run); otherwise it logs and resolves undefined. -/
def getControllerInfo (dev : DellDevice) (tok : Option String) (controllerUrl : String) :
    List PhaseEv × Except DFailure (Option (List (Option (JVal × JVal))) × Option String) :=
  let r0 := dellHttpGet dev tok controllerUrl
  match r0.2 with
  | .error f => (r0.1, .error f)
  | .ok (controller, tok2) =>
    if controller.truthy && (controller.field "Name").truthy
        && (controller.field "Drives").truthy then
      match jsArrElems (controller.field "Drives") with
      | some drives =>
        let r1 := mapDrives dev (controller.field "Name") drives tok2
        (r0.1 ++ r1.1,
          match r1.2 with
          | .error f => .error f
          | .ok (infos, tok3) => .ok (some infos, tok3))
      | none => (r0.1, .error .generic)
    else
      (r0.1, .ok (none, tok2))

/-- The `controllers.Members.map(...)` stage of `getControllers`
(lines 94-98). -/
def mapControllers (dev : DellDevice) :
    List JVal → Option String →
    List PhaseEv ×
      Except DFailure (List (Option (List (Option (JVal × JVal)))) × Option String)
  | [], tok => ([], .ok ([], tok))
  | m :: rest, tok =>
    match m.fieldE "@odata.id" with
    | .error _ => ([], .error .generic)
    | .ok u =>
      let r1 := getControllerInfo dev tok (jsToString u)
      match r1.2 with
      | .error f => (r1.1, .error f)
      | .ok (info, tok2) =>
        let r2 := mapControllers dev rest tok2
        (r1.1 ++ r2.1,
          match r2.2 with
          | .error f => .error f
          | .ok (infos, tok3) => .ok (info :: infos, tok3))

/-- `getControllers` (lines 91-101): fetches `/redfish/v1/Storage`; with a
truthy body carrying truthy `Members` it maps over the members; otherwise it
resolves undefined (no `else` branch in the source). -/
def getControllers (dev : DellDevice) (tok : Option String) :
    List PhaseEv ×
      Except DFailure (Option (List (Option (List (Option (JVal × JVal))))) × Option String) :=
  let r0 := dellHttpGet dev tok "/redfish/v1/Storage"
  match r0.2 with
  | .error f => (r0.1, .error f)
  | .ok (controllers, tok2) =>
    if controllers.truthy && (controllers.field "Members").truthy then
      match jsArrElems (controllers.field "Members") with
      | some members =>
        let r1 := mapControllers dev members tok2
        (r0.1 ++ r1.1,
          match r1.2 with
          | .error f => .error f
          | .ok (infos, tok3) => .ok (some infos, tok3))
      | none => (r0.1, .error .generic)
    else
      (r0.1, .ok (none, tok2))

/-- The per-drive body of `extractData` (lines 162-173), after the
`!controllerName || !drive` guard: the unguarded property chains
`drive.PhysicalLocation.Placement.Rack` and `drive.Status.State` can throw. -/
def extractDrive (controllerName drive : JVal) : Except Unit DellRecord := do
  let name := drive.field "Name"
  let serialNumber := drive.field "SerialNumber"
  let physicalLocation := drive.field "PhysicalLocation"
  let placement ← physicalLocation.fieldE "Placement"
  let rack ← placement.fieldE "Rack"
  let rackOffset ← placement.fieldE "RackOffset"
  let status := drive.field "Status"
  let state ← status.fieldE "State"
  let health ← if jsEqStr state "Enabled" then status.fieldE "Health" else pure (JVal.str "N/A")
  pure { id := sanitize (jsToString controllerName ++ " " ++ jsToString name)
         cols := [serialNumber, rack, rackOffset, health] }

/-- The inner `driveData.forEach` of `extractData`: records inserted so far
are kept even when a later drive fails the run. -/
def extractDrives : List (Option (JVal × JVal)) → List DellRecord × Option DFailure
  | [] => ([], none)
  | none :: _ => ([], some .generic)
  | some (controllerName, drive) :: rest =>
    if !controllerName.truthy || !drive.truthy then
      ([], some .generic)
    else
      match extractDrive controllerName drive with
      | .error _ => ([], some .generic)
      | .ok record =>
        let r := extractDrives rest
        (record :: r.1, r.2)

/-- The outer `data.forEach` of `extractData`: an undefined element (a
controller that resolved undefined) throws on `.forEach`. -/
def extractRows : List (Option (List (Option (JVal × JVal)))) → List DellRecord × Option DFailure
  | [] => ([], none)
  | none :: _ => ([], some .generic)
  | some drives :: rest =>
    match extractDrives drives with
    | (recs, some f) => (recs, some f)
    | (recs, none) =>
      let r := extractRows rest
      (recs ++ r.1, r.2)

/-- `extractData` (lines 153-177): iterates the `q.all` result inserting one
record per drive and ends with `D.success(table)`; called on undefined (when
`getControllers` resolved without a value) the `.forEach` throws and the
`.catch` fails the run. -/
def extractData (data : Option (List (Option (List (Option (JVal × JVal)))))) :
    List PhaseEv × List DellRecord × Option DFailure :=
  match data with
  | none => ([.parseStep], [], some .generic)
  | some rows =>
    match extractRows rows with
    | (recs, some f) => ([.parseStep], recs, some f)
    | (recs, none) => ([.parseStep, .report], recs, none)

/-- The module-level mutable state: `var sessionToken;` and the table created
by `D.createTable`. -/
structure DellModuleState where
  sessionToken : Option String
  table : List DellRecord

/-- The state a fresh script evaluation starts from. -/
def dellInitState : DellModuleState := { sessionToken := none, table := [] }

structure DellRun where
  trace : List PhaseEv
  table : List DellRecord
  outcome : Except DFailure Unit

/-- `get_status` (lines 208-216): `login().then(getControllers)
.then(extractData).catch(...)`, started from an explicit module state. -/
def dell_get_status_from (init : DellModuleState) (dev : DellDevice) : DellRun :=
  match processResponse init.sessionToken dev.loginResp with
  | .error (f, _) => { trace := [.auth], table := init.table, outcome := .error f }
  | .ok (tok, _body) =>
    let r1 := getControllers dev tok
    match r1.2 with
    | .error f => { trace := .auth :: r1.1, table := init.table, outcome := .error f }
    | .ok (data, _tok2) =>
      let r2 := extractData data
      { trace := .auth :: r1.1 ++ r2.1
        table := init.table ++ r2.2.1
        outcome := match r2.2.2 with
          | some f => .error f
          | none => .ok () }

/-- A `get_status` run from the initial module state. -/
def dell_get_status (dev : DellDevice) : DellRun :=
  dell_get_status_from dellInitState dev

/-! ## ESXi services driver (src/examples/http/esxi_services.js)

Four SOAP POSTs to `/sdk`: login, CreateContainerView, Fetch,
RetrieveProperties; the last response is scraped into the services table and
`D.success` receives the table. -/

/-- `createSoapPayload` (lines 76-80). -/
def createSoapPayload (soapBody : String) : String :=
  "<?xml version=\"1.0\" encoding=\"UTF-8\"?><soapenv:Envelope xmlns:soapenv=\"http://schemas.xmlsoap.org/soap/envelope/\" xmlns:vim25=\"urn:vim25\"><soapenv:Body>"
    ++ soapBody
    ++ "</soapenv:Body></soapenv:Envelope>"

/-- The login payload (lines 97-103), built from the device credentials. -/
def loginPayload (userName password : String) : String :=
  createSoapPayload
    ("<vim25:Login>"
      ++ "   <_this type=\"SessionManager\">ha-sessionmgr</_this>"
      ++ "   <userName>" ++ userName ++ "</userName>"
      ++ "   <password>" ++ password ++ "</password>"
      ++ "</vim25:Login>")

/-- The CreateContainerView payload (lines 123-130). -/
def containerPayload : String :=
  createSoapPayload
    ("<CreateContainerView xmlns=\"urn:vim25\">"
      ++ "    <_this type=\"ViewManager\">ViewManager</_this>"
      ++ "    <container type=\"Folder\">ha-folder-root</container>"
      ++ "    <type>HostSystem</type>"
      ++ "    <recursive>true</recursive>"
      ++ "</CreateContainerView>")

/-- The Fetch payload (lines 151-156), parameterised by the container id. -/
def fetchPayload (containerId : String) : String :=
  createSoapPayload
    ("<Fetch xmlns=\"urn:vim25\">"
      ++ "    <_this type=\"ContainerView\">" ++ containerId ++ "</_this>"
      ++ "    <prop>view</prop>"
      ++ "</Fetch>")

/-- The RetrieveProperties payload (lines 167-180), parameterised by the host
reference. -/
def retrievePayload (hostRef : String) : String :=
  createSoapPayload
    ("<RetrieveProperties xmlns=\"urn:vim25\">"
      ++ "    <_this type=\"PropertyCollector\">ha-property-collector</_this>"
      ++ "    <specSet>"
      ++ "        <propSet>"
      ++ "            <type>HostSystem</type>"
      ++ "            <pathSet>config.service</pathSet>"
      ++ "        </propSet>"
      ++ "        <objectSet>"
      ++ "            <obj type=\"HostSystem\">" ++ hostRef ++ "</obj>"
      ++ "        </objectSet>"
      ++ "    </specSet>"
      ++ "</RetrieveProperties>")

/-- A SOAP response: transport error, a missing response object, the status
code and the body. -/
structure SoapResp where
  error : Option String
  isNull : Bool
  statusCode : Nat
  body : String

/-- The response handling of `sendSoapRequest` (lines 53-67): a transport
error is logged and fails with GENERIC_ERROR; a missing response fails with
RESOURCE_UNAVAILABLE; status 400 fails with AUTHENTICATION_ERROR; any other
non-200 status fails with GENERIC_ERROR; otherwise the extractor is applied
to the body and the result resolves.  The `.error` payload carries the
failure type and the console output. -/
def sendSoap (dev : String → SoapResp) (payload : String) :
    Except (DFailure × List String) String :=
  let r := dev payload
  if let some e := r.error then .error (.generic, [e])
  else if r.isNull then .error (.resourceUnavailable, [])
  else if r.statusCode = 400 then .error (.authentication, [])
  else if r.statusCode ≠ 200 then .error (.generic, [])
  else .ok r.body

/-- A row of the "Services Details" table. -/
structure EsxiRecord where
  id : String
  cols : List String
deriving DecidableEq, Repr

/-- The device plus the four response extractors.  The extractors
(`getSessionKey`, `getContainerIdFromSoap`, `getHostRefFromSoap`,
`generateTabelOutput`'s scrape) are single `D.htmlParse` selector queries;
`D.htmlParse` belongs to the host SDK, so they are modelled as parameters:
`services body` is the list of records `generateTabelOutput` inserts for the
given response body. -/
structure EsxiSetup where
  dev : String → SoapResp
  userName : String
  password : String
  sessionKey : String → String
  containerId : String → String
  hostRef : String → String
  services : String → List EsxiRecord

structure EsxiRun where
  trace : List PhaseEv
  table : List EsxiRecord
  outcome : Except DFailure Unit

/-- `get_status` (lines 242-252): `login().then(createAllHostContainer)
.then(fetchContainer).then(retrieveProprieties).then(D.success).catch(...)`.
The login resolves with the session key, which `createAllHostContainer`
ignores; the container id and host reference feed the next payloads;
`retrieveProprieties` resolves with the populated services table, which
`D.success` receives. -/
def esxi_get_status (s : EsxiSetup) : EsxiRun :=
  match sendSoap s.dev (loginPayload s.userName s.password) with
  | .error (f, _) => { trace := [.auth], table := [], outcome := .error f }
  | .ok body0 =>
    let _sessionKey := s.sessionKey body0
    match sendSoap s.dev containerPayload with
    | .error (f, _) =>
      { trace := [.auth, .fetchReq containerPayload], table := [], outcome := .error f }
    | .ok body1 =>
      let containerId := s.containerId body1
      match sendSoap s.dev (fetchPayload containerId) with
      | .error (f, _) =>
        { trace := [.auth, .fetchReq containerPayload, .fetchReq (fetchPayload containerId)]
          table := [], outcome := .error f }
      | .ok body2 =>
        let hostRef := s.hostRef body2
        match sendSoap s.dev (retrievePayload hostRef) with
        | .error (f, _) =>
          { trace := [.auth, .fetchReq containerPayload,
              .fetchReq (fetchPayload containerId), .fetchReq (retrievePayload hostRef)]
            table := [], outcome := .error f }
        | .ok body3 =>
          { trace := [.auth, .fetchReq containerPayload,
              .fetchReq (fetchPayload containerId), .fetchReq (retrievePayload hostRef),
              .parseStep, .report]
            table := s.services body3
            outcome := .ok () }

/-! ## C9: bounds on `sanitize` and on every Dell record id -/

theorem charOfNat_toNat {n : Nat} (h : n.isValidChar) : (Char.ofNat n).toNat = n := by
  unfold Char.ofNat
  rw [dif_pos h]
  rfl

theorem toLower_toNat (c : Char) :
    (Char.toLower c).toNat =
      if 65 ≤ c.toNat ∧ c.toNat ≤ 90 then c.toNat + 32 else c.toNat := by
  simp only [Char.toLower]
  split
  next h => exact charOfNat_toNat (Or.inl (by omega))
  next h => rfl

theorem toLower_not_upper (c : Char) :
    ¬(65 ≤ (Char.toLower c).toNat ∧ (Char.toLower c).toNat ≤ 90) := by
  rw [toLower_toNat]
  split <;> omega

theorem isWsChar_toLower_false (c : Char) (h : isWsChar c = false) :
    isWsChar (Char.toLower c) = false := by
  simp only [isWsChar] at h ⊢
  rw [toLower_toNat]
  split
  next hc =>
    simp only [Bool.or_eq_false_iff, decide_eq_false_iff_not] at h ⊢
    omega
  next => exact h

theorem dashWsGo_length : ∀ (cs : List Char) (b : Bool),
    (dashWsGo cs b).length ≤ cs.length := by
  intro cs
  induction cs with
  | nil => intro b; simp [dashWsGo]
  | cons c rest ih =>
    intro b
    simp only [dashWsGo]
    split
    · split
      · exact Nat.le_succ_of_le (ih true)
      · simpa using Nat.succ_le_succ (ih true)
    · simpa using Nat.succ_le_succ (ih false)

theorem dashWsGo_no_ws : ∀ (cs : List Char) (b : Bool) (c : Char),
    c ∈ dashWsGo cs b → isWsChar c = false := by
  intro cs
  induction cs with
  | nil => intro b c h; simp [dashWsGo] at h
  | cons a rest ih =>
    intro b c h
    simp only [dashWsGo] at h
    by_cases hws : isWsChar a = true
    · rw [if_pos hws] at h
      cases b with
      | true =>
        rw [if_pos rfl] at h
        exact ih true c h
      | false =>
        rw [if_neg (by simp)] at h
        rcases List.mem_cons.mp h with h1 | h1
        · subst h1; decide
        · exact ih true c h1
    · rw [if_neg hws] at h
      rcases List.mem_cons.mp h with h1 | h1
      · subst h1; simpa using hws
      · exact ih false c h1

theorem dashWsGo_mem : ∀ (cs : List Char) (b : Bool) (c : Char),
    c ∈ dashWsGo cs b → c = '-' ∨ c ∈ cs := by
  intro cs
  induction cs with
  | nil => intro b c h; simp [dashWsGo] at h
  | cons a rest ih =>
    intro b c h
    simp only [dashWsGo] at h
    by_cases hws : isWsChar a = true
    · rw [if_pos hws] at h
      cases b with
      | true =>
        rw [if_pos rfl] at h
        rcases ih true c h with h1 | h1
        · exact Or.inl h1
        · exact Or.inr (List.mem_cons_of_mem a h1)
      | false =>
        rw [if_neg (by simp)] at h
        rcases List.mem_cons.mp h with h1 | h1
        · exact Or.inl h1
        · rcases ih true c h1 with h2 | h2
          · exact Or.inl h2
          · exact Or.inr (List.mem_cons_of_mem a h2)
    · rw [if_neg hws] at h
      rcases List.mem_cons.mp h with h1 | h1
      · exact Or.inr (h1 ▸ List.mem_cons_self a rest)
      · rcases ih false c h1 with h2 | h2
        · exact Or.inl h2
        · exact Or.inr (List.mem_cons_of_mem a h2)

theorem removeReservedGo_subset : ∀ (l : List Char) (n : Nat),
    ∀ c ∈ removeReservedGo l n, c ∈ l := by
  intro l
  induction l with
  | nil => intro n c hc; simp [removeReservedGo] at hc
  | cons a rest ih =>
    intro n c hc
    match n with
    | m + 1 =>
      simp only [removeReservedGo] at hc
      exact List.mem_cons_of_mem a (ih m c hc)
    | 0 =>
      simp only [removeReservedGo] at hc
      split at hc
      · exact List.mem_cons_of_mem a (ih 4 c hc)
      · split at hc
        · exact List.mem_cons_of_mem a (ih 5 c hc)
        · split at hc
          · exact List.mem_cons_of_mem a (ih 6 c hc)
          · split at hc
            · exact List.mem_cons_of_mem a (ih 0 c hc)
            · rcases List.mem_cons.mp hc with h | h
              · exact h ▸ List.mem_cons_self a rest
              · exact List.mem_cons_of_mem a (ih 0 c h)

theorem removeReserved_subset (l : List Char) : ∀ c ∈ removeReserved l, c ∈ l :=
  removeReservedGo_subset l 0

theorem jsLowerChar_ascii (c : Char) (h : c.toNat < 128) :
    jsLowerChar c = [Char.toLower c] := by
  rw [jsLowerChar, if_neg (by omega)]

theorem toLower_ascii_lt (c : Char) (h : c.toNat < 128) : (Char.toLower c).toNat < 128 := by
  rw [toLower_toNat]
  split <;> omega

theorem flatMap_lower_ascii : ∀ (l : List Char), (∀ c ∈ l, c.toNat < 128) →
    l.flatMap jsLowerChar = l.map Char.toLower := by
  intro l
  induction l with
  | nil => intro _; rfl
  | cons a rest ih =>
    intro h
    rw [List.flatMap_cons, jsLowerChar_ascii a (h a (List.mem_cons_self a rest)),
      ih (fun c hc => h c (List.mem_cons_of_mem a hc)), List.map_cons,
      List.singleton_append]

theorem sanitize_ascii_bounds (s : String) (hs : ∀ c ∈ s.data, c.toNat < 128) :
    (sanitize s).length ≤ 50 ∧
    ∀ c ∈ (sanitize s).data,
      c.toNat < 128 ∧ isWsChar c = false ∧ ¬(65 ≤ c.toNat ∧ c.toNat ≤ 90) := by
  have hdw : ∀ c ∈ dashWs ((removeReserved s.data).take 50), c.toNat < 128 := by
    intro c hc
    rcases dashWsGo_mem _ _ c hc with h | h
    · subst h; decide
    · exact hs c (removeReserved_subset s.data c (List.take_subset _ _ h))
  have hmap : (dashWs ((removeReserved s.data).take 50)).flatMap jsLowerChar =
      (dashWs ((removeReserved s.data).take 50)).map Char.toLower :=
    flatMap_lower_ascii _ hdw
  constructor
  · show ((dashWs ((removeReserved s.data).take 50)).flatMap jsLowerChar).length ≤ 50
    rw [hmap, List.length_map]
    exact le_trans (dashWsGo_length _ _) (List.length_take_le _ _)
  · intro c hc
    have hc2 : c ∈ (dashWs ((removeReserved s.data).take 50)).flatMap jsLowerChar := hc
    rw [hmap] at hc2
    rcases List.mem_map.mp hc2 with ⟨a, ha, rfl⟩
    exact ⟨toLower_ascii_lt a (hdw a ha),
      isWsChar_toLower_false a (dashWsGo_no_ws _ _ a ha), toLower_not_upper a⟩

theorem extractDrive_ok_id (controllerName drive : JVal) (r0 : DellRecord)
    (h : extractDrive controllerName drive = Except.ok r0) :
    r0.id = sanitize (jsToString controllerName ++ " " ++ jsToString (drive.field "Name")) := by
  unfold extractDrive at h
  simp only [bind, Except.bind, pure, Except.pure] at h
  cases h1 : (drive.field "PhysicalLocation").fieldE "Placement" with
  | error e => simp [h1] at h
  | ok placement =>
    simp only [h1] at h
    cases h2 : placement.fieldE "Rack" with
    | error e => simp [h2] at h
    | ok rack =>
      simp only [h2] at h
      cases h3 : placement.fieldE "RackOffset" with
      | error e => simp [h3] at h
      | ok rackOffset =>
        simp only [h3] at h
        cases h4 : (drive.field "Status").fieldE "State" with
        | error e => simp [h4] at h
        | ok state =>
          simp only [h4] at h
          by_cases h5 : jsEqStr state "Enabled" = true
          · rw [if_pos h5] at h
            cases h6 : (drive.field "Status").fieldE "Health" with
            | error e => simp [h6] at h
            | ok health =>
              simp only [h6, Except.ok.injEq] at h
              rw [← h]
          · rw [if_neg h5] at h
            simp only [Except.ok.injEq] at h
            rw [← h]

theorem extractDrives_ids : ∀ (l : List (Option (JVal × JVal))),
    ∀ r ∈ (extractDrives l).1, ∃ s, r.id = sanitize s := by
  intro l
  induction l with
  | nil => intro r h; simp [extractDrives] at h
  | cons a rest ih =>
    intro r h
    match a with
    | none => simp [extractDrives] at h
    | some (cn, drv) =>
      simp only [extractDrives] at h
      by_cases hg : (!cn.truthy || !drv.truthy) = true
      · rw [if_pos hg] at h; simp at h
      · rw [if_neg hg] at h
        cases hrec : extractDrive cn drv with
        | error e => simp [hrec] at h
        | ok record =>
          simp only [hrec] at h
          rcases List.mem_cons.mp h with h1 | h1
          · rw [h1]; exact ⟨_, extractDrive_ok_id cn drv record hrec⟩
          · exact ih r h1

theorem extractRows_ids : ∀ (l : List (Option (List (Option (JVal × JVal))))),
    ∀ r ∈ (extractRows l).1, ∃ s, r.id = sanitize s := by
  intro l
  induction l with
  | nil => intro r h; simp [extractRows] at h
  | cons a rest ih =>
    intro r h
    match a with
    | none => simp [extractRows] at h
    | some drives =>
      simp only [extractRows] at h
      rcases hd : extractDrives drives with ⟨recs, fOpt⟩
      rw [hd] at h
      match fOpt with
      | some f =>
        simp only at h
        have : r ∈ (extractDrives drives).1 := by rw [hd]; exact h
        exact extractDrives_ids drives r this
      | none =>
        simp only at h
        rcases List.mem_append.mp h with h1 | h1
        · have : r ∈ (extractDrives drives).1 := by rw [hd]; exact h1
          exact extractDrives_ids drives r this
        · exact ih r h1

theorem dell_table_ids (dev : DellDevice) :
    ∀ r ∈ (dell_get_status dev).table, ∃ s, r.id = sanitize s := by
  intro r h
  unfold dell_get_status dell_get_status_from at h
  cases hp : processResponse dellInitState.sessionToken dev.loginResp with
  | error fl =>
    obtain ⟨f, logs⟩ := fl
    simp only [hp] at h
    simp [dellInitState] at h
  | ok tb =>
    obtain ⟨tok, body⟩ := tb
    simp only [hp] at h
    cases hg : (getControllers dev tok).2 with
    | error f =>
      simp only [hg] at h
      simp [dellInitState] at h
    | ok db =>
      obtain ⟨data, tok2⟩ := db
      simp only [hg, dellInitState, List.nil_append] at h
      cases data with
      | none => simp [extractData] at h
      | some rows =>
        simp only [extractData] at h
        rcases hr : extractRows rows with ⟨recs, fOpt⟩
        rw [hr] at h
        have hrecs : r ∈ (extractRows rows).1 := by
          rw [hr]
          cases fOpt with
          | some f => simpa using h
          | none => simpa using h
        exact extractRows_ids rows r hrecs

/-! ## C3: the authenticate-fetch-parse-report order -/

theorem pairwise_phase_const (L : List PhaseEv) (k : Nat) (h : ∀ e ∈ L, phaseOf e = k) :
    PhaseMono L := by
  induction L with
  | nil => exact List.Pairwise.nil
  | cons a l ih =>
    refine List.Pairwise.cons ?_ (ih fun e he => h e (List.mem_cons_of_mem a he))
    intro b hb
    rw [h a (List.mem_cons_self a l), h b (List.mem_cons_of_mem a hb)]

theorem phaseMono_auth_fetch_tail (L T : List PhaseEv)
    (hL : ∀ e ∈ L, phaseOf e = 1)
    (hT : PhaseMono T) (hT2 : ∀ e ∈ T, 2 ≤ phaseOf e) :
    PhaseMono (PhaseEv.auth :: (L ++ T)) := by
  refine List.Pairwise.cons ?_ ?_
  · intro e he
    rcases List.mem_append.mp he with h | h
    · rw [hL e h]; simp [phaseOf]
    · have := hT2 e h; simp only [phaseOf]; omega
  · refine List.pairwise_append.mpr ⟨pairwise_phase_const L 1 hL, hT, ?_⟩
    intro a ha b hb
    rw [hL a ha]
    exact le_trans (by omega) (hT2 b hb)

theorem mem_single_fetch {url : String} {e : PhaseEv}
    (h : e ∈ [PhaseEv.fetchReq url]) : phaseOf e = 1 := by
  simp at h; subst h; rfl

theorem phaseMono_parse_report : PhaseMono [PhaseEv.parseStep, PhaseEv.report] := by
  refine List.Pairwise.cons ?_ (List.pairwise_singleton _ _)
  intro b hb
  simp at hb
  subst hb
  decide

theorem mapDrives_events (dev : DellDevice) (cn : JVal) :
    ∀ (l : List JVal) (tok : Option String),
      ∀ e ∈ (mapDrives dev cn l tok).1, phaseOf e = 1 := by
  intro l
  induction l with
  | nil => intro tok e h; simp [mapDrives] at h
  | cons d rest ih =>
    intro tok e h
    simp only [mapDrives] at h
    cases hf : d.fieldE "@odata.id" with
    | error u => simp [hf] at h
    | ok u =>
      simp only [hf] at h
      cases hr : (getDriveInfo dev tok (jsToString u) cn).2 with
      | error f =>
        simp only [hr] at h
        exact mem_single_fetch h
      | ok itok =>
        obtain ⟨info, tok2⟩ := itok
        simp only [hr] at h
        rcases List.mem_append.mp h with h1 | h1
        · exact mem_single_fetch h1
        · exact ih tok2 e h1

theorem getControllerInfo_events (dev : DellDevice) (tok : Option String) (url : String) :
    ∀ e ∈ (getControllerInfo dev tok url).1, phaseOf e = 1 := by
  intro e h
  unfold getControllerInfo at h
  cases hr : (dellHttpGet dev tok url).2 with
  | error f =>
    simp only [hr] at h
    exact mem_single_fetch h
  | ok ct =>
    obtain ⟨controller, tok2⟩ := ct
    simp only [hr] at h
    by_cases hguard : (controller.truthy && (controller.field "Name").truthy
        && (controller.field "Drives").truthy) = true
    · rw [if_pos hguard] at h
      cases hD : jsArrElems (controller.field "Drives") with
      | none =>
        simp only [hD] at h
        exact mem_single_fetch h
      | some drives =>
        simp only [hD] at h
        rcases List.mem_append.mp h with h1 | h1
        · exact mem_single_fetch h1
        · exact mapDrives_events dev _ drives tok2 e h1
    · rw [if_neg hguard] at h
      exact mem_single_fetch h

theorem mapControllers_events (dev : DellDevice) :
    ∀ (l : List JVal) (tok : Option String),
      ∀ e ∈ (mapControllers dev l tok).1, phaseOf e = 1 := by
  intro l
  induction l with
  | nil => intro tok e h; simp [mapControllers] at h
  | cons m rest ih =>
    intro tok e h
    simp only [mapControllers] at h
    cases hf : m.fieldE "@odata.id" with
    | error u => simp [hf] at h
    | ok u =>
      simp only [hf] at h
      cases hr : (getControllerInfo dev tok (jsToString u)).2 with
      | error f =>
        simp only [hr] at h
        exact getControllerInfo_events dev tok (jsToString u) e h
      | ok itok =>
        obtain ⟨info, tok2⟩ := itok
        simp only [hr] at h
        rcases List.mem_append.mp h with h1 | h1
        · exact getControllerInfo_events dev tok (jsToString u) e h1
        · exact ih tok2 e h1

theorem getControllers_events (dev : DellDevice) (tok : Option String) :
    ∀ e ∈ (getControllers dev tok).1, phaseOf e = 1 := by
  intro e h
  unfold getControllers at h
  cases hr : (dellHttpGet dev tok "/redfish/v1/Storage").2 with
  | error f =>
    simp only [hr] at h
    exact mem_single_fetch h
  | ok ct =>
    obtain ⟨controllers, tok2⟩ := ct
    simp only [hr] at h
    by_cases hguard : (controllers.truthy && (controllers.field "Members").truthy) = true
    · rw [if_pos hguard] at h
      cases hD : jsArrElems (controllers.field "Members") with
      | none =>
        simp only [hD] at h
        exact mem_single_fetch h
      | some members =>
        simp only [hD] at h
        rcases List.mem_append.mp h with h1 | h1
        · exact mem_single_fetch h1
        · exact mapControllers_events dev members tok2 e h1
    · rw [if_neg hguard] at h
      exact mem_single_fetch h

theorem dell_phase_props (dev : DellDevice) :
    (dell_get_status dev).trace.head? = some PhaseEv.auth ∧
    PhaseMono (dell_get_status dev).trace ∧
    ((dell_get_status dev).outcome = .ok () →
      (dell_get_status dev).trace.getLast? = some PhaseEv.report) := by
  unfold dell_get_status dell_get_status_from
  cases hp : processResponse dellInitState.sessionToken dev.loginResp with
  | error fl =>
    obtain ⟨f, logs⟩ := fl
    simp only
    refine ⟨rfl, ?_, ?_⟩
    · exact List.pairwise_singleton _ _
    · intro hok; simp at hok
  | ok tb =>
    obtain ⟨tok, body⟩ := tb
    simp only
    have hev1 := getControllers_events dev tok
    cases hg : (getControllers dev tok).2 with
    | error f =>
      simp only
      refine ⟨rfl, ?_, ?_⟩
      · have := phaseMono_auth_fetch_tail (getControllers dev tok).1 [] hev1
          List.Pairwise.nil (by simp)
        simpa using this
      · intro hok; simp at hok
    | ok db =>
      obtain ⟨data, tok2⟩ := db
      simp only
      cases data with
      | none =>
        refine ⟨rfl, ?_, ?_⟩
        · exact phaseMono_auth_fetch_tail (getControllers dev tok).1 [PhaseEv.parseStep]
            hev1 (by simp [PhaseMono]) (by intro e he; simp at he; subst he; decide)
        · intro hok; simp [extractData] at hok
      | some rows =>
        rcases hr : extractRows rows with ⟨recs, fOpt⟩
        cases fOpt with
        | some f =>
          simp only [extractData, hr]
          refine ⟨rfl, ?_, ?_⟩
          · exact phaseMono_auth_fetch_tail (getControllers dev tok).1 [PhaseEv.parseStep]
              hev1 (by simp [PhaseMono]) (by intro e he; simp at he; subst he; decide)
          · intro hok; simp at hok
        | none =>
          simp only [extractData, hr]
          refine ⟨rfl, ?_, ?_⟩
          · exact phaseMono_auth_fetch_tail (getControllers dev tok).1
              [PhaseEv.parseStep, PhaseEv.report] hev1 phaseMono_parse_report
              (by intro e he; simp at he; rcases he with he | he <;> subst he <;> decide)
          · intro _
            rw [← List.singleton_append, List.getLast?_append, List.getLast?_append]
            rfl

theorem phaseMono_esxi_full (p1 p2 p3 : String) :
    PhaseMono [PhaseEv.auth, .fetchReq p1, .fetchReq p2, .fetchReq p3,
      .parseStep, .report] := by
  show PhaseMono (PhaseEv.auth :: ([PhaseEv.fetchReq p1, .fetchReq p2, .fetchReq p3] ++
    [PhaseEv.parseStep, PhaseEv.report]))
  refine phaseMono_auth_fetch_tail _ _ ?_ phaseMono_parse_report ?_
  · intro e he
    simp at he
    rcases he with he | he | he <;> subst he <;> rfl
  · intro e he
    simp at he
    rcases he with he | he <;> subst he <;> decide

theorem phaseMono_auth_fetches (L : List PhaseEv) (hL : ∀ e ∈ L, phaseOf e = 1) :
    PhaseMono (PhaseEv.auth :: L) := by
  have := phaseMono_auth_fetch_tail L [] hL List.Pairwise.nil (by simp)
  simpa using this

theorem esxi_phase_props (s : EsxiSetup) :
    (esxi_get_status s).trace.head? = some PhaseEv.auth ∧
    PhaseMono (esxi_get_status s).trace ∧
    ((esxi_get_status s).outcome = .ok () →
      (esxi_get_status s).trace.getLast? = some PhaseEv.report) := by
  unfold esxi_get_status
  cases h0 : sendSoap s.dev (loginPayload s.userName s.password) with
  | error fl =>
    obtain ⟨f, logs⟩ := fl
    dsimp only
    exact ⟨rfl, List.pairwise_singleton _ _, by intro hok; simp at hok⟩
  | ok body0 =>
    dsimp only
    cases h1 : sendSoap s.dev containerPayload with
    | error fl =>
      obtain ⟨f, logs⟩ := fl
      dsimp only
      refine ⟨rfl, ?_, by intro hok; simp at hok⟩
      exact phaseMono_auth_fetches [PhaseEv.fetchReq containerPayload]
        (fun e he => mem_single_fetch he)
    | ok body1 =>
      dsimp only
      cases h2 : sendSoap s.dev (fetchPayload (s.containerId body1)) with
      | error fl =>
        obtain ⟨f, logs⟩ := fl
        dsimp only
        refine ⟨rfl, ?_, by intro hok; simp at hok⟩
        apply phaseMono_auth_fetches
        intro e he
        simp at he
        rcases he with he | he <;> subst he <;> rfl
      | ok body2 =>
        dsimp only
        cases h3 : sendSoap s.dev (retrievePayload (s.hostRef body2)) with
        | error fl =>
          obtain ⟨f, logs⟩ := fl
          dsimp only
          refine ⟨rfl, ?_, by intro hok; simp at hok⟩
          apply phaseMono_auth_fetches
          intro e he
          simp at he
          rcases he with he | he | he <;> subst he <;> rfl
        | ok body3 =>
          dsimp only
          exact ⟨rfl, phaseMono_esxi_full _ _ _, fun _ => rfl⟩

/-- C3 -- In every run of a driver's `get_status`, the steps occur in the
order authenticate, fetch, parse, report: the trace starts with the
authentication request, is phase-monotone (no data-fetch request is issued
before authentication has completed, parsing happens only after the fetches),
and on a successful run ends with the `D.success` report (the Dell driver
chains `login`, `getControllers`, `extractData`; the ESXi driver chains
`login`, `createAllHostContainer`, `fetchContainer`, `retrieveProprieties`,
`D.success`). -/
theorem drivers_phase_order :
    (∀ dev : DellDevice,
      (dell_get_status dev).trace.head? = some PhaseEv.auth ∧
      PhaseMono (dell_get_status dev).trace ∧
      ((dell_get_status dev).outcome = .ok () →
        (dell_get_status dev).trace.getLast? = some PhaseEv.report)) ∧
    (∀ s : EsxiSetup,
      (esxi_get_status s).trace.head? = some PhaseEv.auth ∧
      PhaseMono (esxi_get_status s).trace ∧
      ((esxi_get_status s).outcome = .ok () →
        (esxi_get_status s).trace.getLast? = some PhaseEv.report)) :=
  ⟨dell_phase_props, esxi_phase_props⟩

/-- A concrete Dell device on which the whole chain succeeds: every GET
returns one object that serves as storage body (one member), controller body
(a name and one drive) and drive body (name, serial, location, status). -/
def demoBody : JVal :=
  JVal.obj [("Name", .str "Controller A"), ("SerialNumber", .str "SN123"),
    ("Members", .arr [.obj [("@odata.id", .str "/redfish/v1/Storage/c1")]]),
    ("Drives", .arr [.obj [("@odata.id", .str "/redfish/v1/Storage/c1/d1")]]),
    ("PhysicalLocation", .obj [("Placement", .obj [("Rack", .num 1), ("RackOffset", .num 2)])]),
    ("Status", .obj [("State", .str "Enabled"), ("Health", .str "OK")])]

def demoDellDevice : DellDevice :=
  { loginResp :=
      { error := none, xAuthToken := some "tok", commandStatus := none
        statusCode := 200, body := JVal.null }
    getResp := fun _ _ =>
      { error := none, xAuthToken := none, commandStatus := none
        statusCode := 200, body := demoBody } }

def demoEsxiSetup : EsxiSetup :=
  { dev := fun _ => { error := none, isNull := false, statusCode := 200, body := "<resp/>" }
    userName := "root"
    password := "pw"
    sessionKey := fun _ => "key"
    containerId := fun _ => "cid"
    hostRef := fun _ => "host"
    services := fun _ => [] }

/-- Concrete witness for `drivers_phase_order`. -/
theorem drivers_phase_order_witness :
    ((dell_get_status demoDellDevice).trace.head? = some PhaseEv.auth ∧
      PhaseMono (dell_get_status demoDellDevice).trace ∧
      ((dell_get_status demoDellDevice).outcome = .ok () →
        (dell_get_status demoDellDevice).trace.getLast? = some PhaseEv.report)) ∧
    ((esxi_get_status demoEsxiSetup).trace.head? = some PhaseEv.auth ∧
      PhaseMono (esxi_get_status demoEsxiSetup).trace ∧
      ((esxi_get_status demoEsxiSetup).outcome = .ok () →
        (esxi_get_status demoEsxiSetup).trace.getLast? = some PhaseEv.report)) :=
  ⟨drivers_phase_order.1 demoDellDevice, drivers_phase_order.2 demoEsxiSetup⟩

/-! ## C7: runs from the initial module state are deterministic -/

/-- C7 -- No state persists across runs: the result of a run is a pure
function of the device responses alone.  Two runs of the Dell driver's
`get_status`, each started from the driver's initial module state
(`var sessionToken;` undefined, empty table), produce identical tables of
rows and the identical success/failure outcome whenever the device responses
coincide. -/
theorem dell_runs_deterministic (dev1 dev2 : DellDevice) (h : dev1 = dev2) :
    (dell_get_status_from dellInitState dev1).table =
      (dell_get_status_from dellInitState dev2).table ∧
    (dell_get_status_from dellInitState dev1).outcome =
      (dell_get_status_from dellInitState dev2).outcome := by
  rw [h]
  exact ⟨rfl, rfl⟩

/-- Concrete witness for `dell_runs_deterministic`. -/
theorem dell_runs_deterministic_witness :
    (dell_get_status_from dellInitState demoDellDevice).table =
      (dell_get_status_from dellInitState demoDellDevice).table ∧
    (dell_get_status_from dellInitState demoDellDevice).outcome =
      (dell_get_status_from dellInitState demoDellDevice).outcome :=
  dell_runs_deterministic demoDellDevice demoDellDevice rfl

/-! ## C2: error handling across the drivers -/

/-- C2 (amended) -- In every driver, whenever a remote request or command
returns an error, the handler signals failure via `D.failure` and performs no
further processing of that response (each `.error` result carries no
continuation value, so no retry, no recovery and no entry into the success
path are possible), and it logs the error to the console -- EXCEPT that the
Windows latency driver's `checkSshError` logs nothing at all when the error
has code 5 and no (or an empty) message: `err.message` is falsy so the first
`console.error` is skipped, and `D.failure(AUTHENTICATION_ERROR)` terminates
the script before the unconditional `console.error(err)` on the next line can
run (see `error_handling_counterexample`). -/
theorem error_handling_amended :
    (∀ (command : String) (resp : SshResp) (e : String), resp.err = some e →
      exec_command_handler command resp =
        .error ["error while executing command: " ++ command, e]) ∧
    (∀ (tok : Option String) (r : HttpResp) (e : String), r.error = some e →
      processResponse tok r = .error (.generic, [e])) ∧
    (∀ (dev : String → SoapResp) (payload : String) (e : String),
      (dev payload).error = some e →
      sendSoap dev payload = .error (.generic, [e])) ∧
    (∀ e : WinErr,
      ((checkSshError e).2 = DFailure.authentication ∨
        (checkSshError e).2 = DFailure.generic) ∧
      ((checkSshError e).1 = [] ↔ e.code = 5 ∧ e.message = "")) := by
  refine ⟨?_, ?_, ?_, ?_⟩
  · intro command resp e he
    simp [exec_command_handler, he]
  · intro tok r e he
    simp [processResponse, he]
  · intro dev payload e he
    simp [sendSoap, he]
  · intro e
    constructor
    · by_cases h5 : e.code = 5 <;> simp [checkSshError, h5]
    · by_cases h5 : e.code = 5 <;> by_cases hm : e.message = "" <;>
        simp [checkSshError, h5, hm]

/-- Concrete witness for `error_handling_amended`. -/
theorem error_handling_amended_witness :
    exec_command_handler "netstat -r -n" { out := "", err := some "boom" } =
      .error ["error while executing command: " ++ "netstat -r -n", "boom"] ∧
    processResponse none
      { error := some "oops", xAuthToken := none, commandStatus := none
        statusCode := 200, body := JVal.null } = .error (.generic, ["oops"]) ∧
    sendSoap (fun _ => { error := some "down", isNull := false, statusCode := 200, body := "" })
      "payload" = .error (.generic, ["down"]) ∧
    (((checkSshError { message := "denied", code := 5 }).2 = DFailure.authentication ∨
      (checkSshError { message := "denied", code := 5 }).2 = DFailure.generic) ∧
      ((checkSshError { message := "denied", code := 5 }).1 = [] ↔
        ({ message := "denied", code := 5 } : WinErr).code = 5 ∧
        ({ message := "denied", code := 5 } : WinErr).message = "")) :=
  ⟨error_handling_amended.1 "netstat -r -n" _ "boom" rfl,
   error_handling_amended.2.1 none _ "oops" rfl,
   error_handling_amended.2.2.1 _ "payload" "down" rfl,
   error_handling_amended.2.2.2 _⟩

/-- Counterexample to C2 as stated: on the SSH error with code 5 and no
message, the Windows driver's `checkSshError` produces NO console output
before `D.failure(AUTHENTICATION_ERROR)` terminates the script, so "logs the
error to the console" fails for this error. -/
theorem error_handling_counterexample :
    (checkSshError { message := "", code := 5 }).1 = [] ∧
    (checkSshError { message := "", code := 5 }).2 = DFailure.authentication :=
  ⟨rfl, rfl⟩

/-- Counterexample to C9 as stated: `toLowerCase` is not length-preserving.
On the 26-character input made of U+0130 (LATIN CAPITAL LETTER I WITH DOT
ABOVE) -- short enough that `slice(0, 50)` keeps all of it -- each character
lower-cases to the two characters U+0069 U+0307, so `sanitize` returns a
52-character string and the universal "length at most 50" bound is false of
the program. -/
theorem sanitize_unicode_counterexample :
    (String.mk (List.replicate 26 (Char.ofNat 304))).length = 26 ∧
    (sanitize (String.mk (List.replicate 26 (Char.ofNat 304)))).length = 52 ∧
    ¬((sanitize (String.mk (List.replicate 26 (Char.ofNat 304)))).length ≤ 50) :=
  ⟨rfl, rfl, by decide⟩

/-- C9 (amended) -- For every input string of basic-latin (ASCII) characters,
`sanitize` in the Dell PowerVault driver returns a string of length at most
50 that contains no whitespace characters and no uppercase letters (all its
characters are ASCII, so the basic-latin uppercase range and the JS `\s` set
are exhaustive there), and every record id the driver inserts is
`sanitize(controllerName + " " + name)` and hence satisfies these bounds
whenever that name string is ASCII.  For arbitrary Unicode input the length
bound fails, because lower-casing U+0130 expands it to two characters
(`sanitize_unicode_counterexample`). -/
theorem sanitize_bounded_ids_ascii :
    (∀ s : String, (∀ c ∈ s.data, c.toNat < 128) →
      (sanitize s).length ≤ 50 ∧
      ∀ c ∈ (sanitize s).data,
        c.toNat < 128 ∧ isWsChar c = false ∧ ¬(65 ≤ c.toNat ∧ c.toNat ≤ 90)) ∧
    (∀ dev : DellDevice, ∀ r ∈ (dell_get_status dev).table,
      ∃ s, r.id = sanitize s ∧
        ((∀ c ∈ s.data, c.toNat < 128) →
          r.id.length ≤ 50 ∧
          ∀ c ∈ r.id.data,
            c.toNat < 128 ∧ isWsChar c = false ∧ ¬(65 ≤ c.toNat ∧ c.toNat ≤ 90))) := by
  refine ⟨sanitize_ascii_bounds, ?_⟩
  intro dev r h
  obtain ⟨s, hs⟩ := dell_table_ids dev r h
  refine ⟨s, hs, fun hascii => ?_⟩
  rw [hs]
  exact sanitize_ascii_bounds s hascii

/-- Concrete witness for `sanitize_bounded_ids_ascii`: an ASCII name with
reserved words, uppercase letters and spaces, and a device whose run inserts
one record. -/
theorem sanitize_bounded_ids_ascii_witness :
    ((sanitize "Controller A ?table HISTORY drive 1").length ≤ 50 ∧
      ∀ c ∈ (sanitize "Controller A ?table HISTORY drive 1").data,
        c.toNat < 128 ∧ isWsChar c = false ∧ ¬(65 ≤ c.toNat ∧ c.toNat ≤ 90)) ∧
    (∀ r ∈ (dell_get_status demoDellDevice).table,
      ∃ s, r.id = sanitize s ∧
        ((∀ c ∈ s.data, c.toNat < 128) →
          r.id.length ≤ 50 ∧
          ∀ c ∈ r.id.data,
            c.toNat < 128 ∧ isWsChar c = false ∧ ¬(65 ≤ c.toNat ∧ c.toNat ≤ 90))) :=
  ⟨sanitize_bounded_ids_ascii.1 "Controller A ?table HISTORY drive 1" (by decide),
   sanitize_bounded_ids_ascii.2 demoDellDevice⟩

end CustomDriver
